import Mathlib

/-!
Verification of the linear-regression-from-scratch notebook
(`keras/supervised_learning/Linear-Regression-Scratch.ipynb`).

Numeric 1-D arrays are modelled as `List ℚ`, 2-D arrays as `List (List ℚ)`
(rows = samples).  Floating-point rounding is out of scope: arithmetic is
exact rational arithmetic.  Shape errors raised by the array library are
modelled with `Option`.
-/

namespace LinRegScratch

/-- Dot product of two equal-length vectors (`v.dot(u)` for 1-D arrays). -/
def dot (v u : List ℚ) : ℚ := (List.zipWith (fun a b => a * b) v u).sum

/-- Column `j` of a row-major matrix (entries past a row's end read as 0;
rectangular matrices never hit the default). -/
def matCol (X : List (List ℚ)) (j : Nat) : List ℚ := X.map (fun row => row.getD j 0)

/-- Vector–matrix product `v.dot(X)` for `v` a sample-indexed vector and
`X` a samples × features matrix: one entry per column of `X`. -/
def vecMat (v : List ℚ) (X : List (List ℚ)) : List ℚ :=
  (List.range X.headI.length).map (fun j => dot v (matCol X j))

/-- Scalar multiple of a vector (`c * v`). -/
def scale (c : ℚ) (v : List ℚ) : List ℚ := v.map (fun x => c * x)

/-- Element-wise difference of equal-length vectors. -/
def vsub (a b : List ℚ) : List ℚ := List.zipWith (fun x y => x - y) a b

/-- Sum of absolute values, `np.sum(abs(v))`. -/
def sumAbs (v : List ℚ) : ℚ := (v.map (fun x => |x|)).sum

/-- Mean of a 1-D array, `np.mean(l)`: sum divided by length (the rational
convention `x / 0 = 0` stands in for NaN on the empty array, which no
claim exercises). -/
def mean (l : List ℚ) : ℚ := l.sum / l.length

/-- Element-wise subtraction of two 1-D numpy arrays, with numpy's
broadcasting: equal lengths subtract pointwise, a length-1 operand is
broadcast against the other, and any other length mismatch is a shape
error (`none`). -/
def bsub (a b : List ℚ) : Option (List ℚ) :=
  if a.length = b.length then some (vsub a b)
  else if a.length = 1 then some (b.map (fun y => a.headI - y))
  else if b.length = 1 then some (a.map (fun x => x - b.headI))
  else none

/-- The predictor `net`: `w.dot(X.transpose()) + b` for a weight vector `w`,
bias scalar `b` and samples × features matrix `X`. -/
def net (w : List ℚ) (b : ℚ) (X : List (List ℚ)) : List ℚ :=
  X.map (fun row => dot w row + b)

/-- The loss evaluator `square_loss`: `np.mean((yhat - y) ** 2)`. -/
def square_loss (yhat y : List ℚ) : Option ℚ :=
  (bsub yhat y).map (fun d => mean (d.map (fun e => e * e)))

/-- The gradient helper `get_gradient(w, x, y)`: predictions via `net`,
`error = y - y_estimate`, `gradient = -(1.0/len(x)) * error.dot(x)`,
`loss = square_loss(y, y_estimate)`.  (In the loop the global `w` closed
over by `net` and the argument `w` coincide; both are passed here.) -/
def get_gradient (w : List ℚ) (b : ℚ) (x : List (List ℚ)) (y : List ℚ) :
    List ℚ × Option ℚ :=
  let y_estimate := net w b x
  let error := vsub y y_estimate
  let gradient := scale (-(1 / (x.length : ℚ))) (vecMat error x)
  let loss := square_loss y y_estimate
  (gradient, loss)

/-- Mutable state of the gradient-descent loop: the weight parameter `w`,
the bias parameter `b` captured by `net`, and the iteration counter
`epochs` (initialised to 1 before the loop). -/
structure GDState where
  w : List ℚ
  b : ℚ
  epochs : Nat
deriving DecidableEq

/-- Outcome of one pass through the `while True` body: either the
`break` was taken (CONVERGED) or the loop continues (RUNNING). -/
inductive StepResult where
  | converged (s : GDState)
  | running (s : GDState)
deriving DecidableEq

/-- The state carried by either outcome. -/
def StepResult.state : StepResult → GDState
  | .converged s => s
  | .running s => s

/-- The candidate update `new_w = w - lr * gradient` computed by the loop
body. -/
def gdCandidate (rate : ℚ) (X : List (List ℚ)) (y : List ℚ) (s : GDState) : List ℚ :=
  vsub s.w (scale rate (get_gradient s.w s.b X y).1)

/-- One pass through the gradient-descent loop body: compute the candidate
weights `new_w`, break (without committing them) when
`np.sum(abs(new_w - w)) < tolerance`, otherwise increment `epochs` and
commit `w = new_w`. -/
def gdStep (rate tol : ℚ) (X : List (List ℚ)) (y : List ℚ) (s : GDState) : StepResult :=
  if sumAbs (vsub (gdCandidate rate X y s) s.w) < tol then .converged s
  else .running ⟨gdCandidate rate X y s, s.b, s.epochs + 1⟩

/-- The notebook's learning rate `lr = 0.01`. -/
def lr : ℚ := 1 / 100

/-- The notebook's convergence threshold `tolerance = 1e-3`. -/
def tolerance : ℚ := 1 / 1000

/-- The true labelling function `real_fn(X) = 2 * X[:, 0] - 3.4 * X[:, 1] + 4.2`. -/
def real_fn (X : List (List ℚ)) : List ℚ :=
  X.map (fun row => 2 * row.getD 0 0 - (17 / 5) * row.getD 1 0 + 21 / 5)

/-- Maximum entry of a matrix, `np.max(X)` (0 on the empty one). -/
def matMax (X : List (List ℚ)) : ℚ :=
  match X.flatten with
  | [] => 0
  | a :: rest => rest.foldl max a

/-- The data-generation cell, as a function of the raw normal samples and
the noise samples drawn from the random source: `X` is the raw sample
matrix divided by its maximum entry (`X /= np.max(X)`), and
`y = real_fn(X) + noise`. -/
def genData (raw : List (List ℚ)) (noise : List ℚ) : List (List ℚ) × List ℚ :=
  let X := raw.map (fun row => row.map (fun v => v / matMax raw))
  (X, List.zipWith (fun a b => a + b) (real_fn X) noise)

/-! Spec-side formulas, written from the specification's wording, to be
compared with the code-side definitions above. -/

/-- Matrix transpose, for the spec's `features^T`. -/
def transpose (X : List (List ℚ)) : List (List ℚ) :=
  (List.range X.headI.length).map (fun j => matCol X j)

/-- The spec's predictor formula: the vector `weights · features^T + bias`. -/
def specNet (w : List ℚ) (b : ℚ) (X : List (List ℚ)) : List ℚ :=
  (vecMat w (transpose X)).map (fun p => p + b)

/-- The spec's gradient formula: `-(1/n) · error · features` with
`error = targets − predictions` and `n` the sample count. -/
def specGradient (w : List ℚ) (b : ℚ) (X : List (List ℚ)) (y : List ℚ) : List ℚ :=
  scale (-(1 / (X.length : ℚ))) (vecMat (vsub y (net w b X)) X)

/-- The spec's candidate-update formula: `weights − learning_rate · gradient`. -/
def specCandidate (rate : ℚ) (X : List (List ℚ)) (y : List ℚ) (s : GDState) : List ℚ :=
  vsub s.w (scale rate (specGradient s.w s.b X y))

/-! Helper lemmas shared by several claim theorems. -/

/-- Evaluating the loss on equal-length inputs takes the first branch of the
broadcasting subtraction. -/
lemma square_loss_eval (yhat y : List ℚ) (h : yhat.length = y.length) :
    square_loss yhat y = some (mean ((vsub yhat y).map (fun e => e * e))) := by
  unfold square_loss bsub
  simp [h]

/-- A sum of squares is non-negative. -/
lemma sumSq_nonneg (l : List ℚ) : 0 ≤ (l.map (fun e => e * e)).sum := by
  induction l with
  | nil => simp
  | cons x xs ih => simpa using add_nonneg (mul_self_nonneg x) ih

/-- A sum of squared differences vanishes exactly on equal lists. -/
lemma sumSq_vsub_eq_zero_iff (a b : List ℚ) (h : a.length = b.length) :
    ((vsub a b).map (fun e => e * e)).sum = 0 ↔ a = b := by
  induction a generalizing b with
  | nil =>
    cases b with
    | nil => simp [vsub]
    | cons y ys => simp at h
  | cons x xs ih =>
    cases b with
    | nil => simp at h
    | cons y ys =>
      have hlen : xs.length = ys.length := by simpa using h
      have hrest := ih ys hlen
      have hsplit :
          ((vsub (x :: xs) (y :: ys)).map (fun e => e * e)).sum =
            (x - y) * (x - y) + ((vsub xs ys).map (fun e => e * e)).sum := by
        simp [vsub]
      rw [hsplit,
        add_eq_zero_iff_of_nonneg (mul_self_nonneg (x - y)) (sumSq_nonneg _)]
      constructor
      · rintro ⟨h1, h2⟩
        have hx : x = y := by
          have := mul_self_eq_zero.mp h1
          linarith [sub_eq_zero.mp this]
        exact by rw [hx, hrest.mp h2]
      · intro hEq
        obtain ⟨h1, h2⟩ := List.cons.injEq x xs y ys ▸ hEq
        exact ⟨by rw [h1]; ring, hrest.mpr h2⟩

/-- Subtracting a list from itself gives zeros. -/
lemma mem_vsub_self (y : List ℚ) : ∀ e ∈ vsub y y, e = 0 := by
  induction y with
  | nil => simp [vsub]
  | cons x xs ih =>
    intro e he
    rcases (by simpa [vsub] using he : e = x - x ∨ e ∈ vsub xs xs) with h | h
    · simp [h]
    · exact ih e h

/-- A dot product with an all-zero left factor is zero. -/
lemma dot_zero_left (v u : List ℚ) (hv : ∀ e ∈ v, e = 0) : dot v u = 0 := by
  induction v generalizing u with
  | nil => simp [dot]
  | cons x xs ih =>
    cases u with
    | nil => simp [dot]
    | cons z zs =>
      have hx : x = 0 := hv x (by simp)
      have hxs : ∀ e ∈ xs, e = 0 := fun e he => hv e (by simp [he])
      have : dot (x :: xs) (z :: zs) = x * z + dot xs zs := by simp [dot]
      rw [this, hx, ih zs hxs]; ring

/-- If every gradient entry is killed by the learning rate, the candidate
update differs from the current weights by an all-zero vector. -/
lemma sumAbs_vsub_candidate (rate : ℚ) (w grad : List ℚ)
    (h : ∀ g ∈ grad, rate * g = 0) :
    sumAbs (vsub (vsub w (scale rate grad)) w) = 0 := by
  induction w generalizing grad with
  | nil => simp [vsub, sumAbs]
  | cons x xs ih =>
    cases grad with
    | nil => simp [vsub, scale, sumAbs]
    | cons g gs =>
      have hg : rate * g = 0 := h g (by simp)
      have hgs : ∀ g0 ∈ gs, rate * g0 = 0 := fun g0 hg0 => h g0 (by simp [hg0])
      have hstep :
          sumAbs (vsub (vsub (x :: xs) (scale rate (g :: gs))) (x :: xs)) =
            |x - rate * g - x| + sumAbs (vsub (vsub xs (scale rate gs)) xs) := by
        simp [vsub, scale, sumAbs]
      rw [hstep, ih gs hgs, hg]
      simp

/-- Subtracting an all-zero vector at least as long as the left operand is
the identity. -/
lemma vsub_zero_right (w z : List ℚ) (hlen : w.length ≤ z.length)
    (hz : ∀ c ∈ z, c = 0) : vsub w z = w := by
  induction w generalizing z with
  | nil => simp [vsub]
  | cons x xs ih =>
    cases z with
    | nil => simp at hlen
    | cons c cs =>
      have hc : c = 0 := hz c (by simp)
      have hcs : ∀ c0 ∈ cs, c0 = 0 := fun c0 h0 => hz c0 (by simp [h0])
      have hl : xs.length ≤ cs.length := by simpa using hlen
      have hstep : vsub (x :: xs) (c :: cs) = (x - c) :: vsub xs cs := by
        simp [vsub]
      rw [hstep, hc, sub_zero, ih cs hl hcs]

/-- On exact predictions the computed gradient is identically zero. -/
lemma gradient_zero_of_exact (w : List ℚ) (b : ℚ) (X : List (List ℚ)) :
    ∀ g ∈ (get_gradient w b X (net w b X)).1, g = 0 := by
  intro g hg
  simp only [get_gradient, scale, vecMat, List.mem_map, List.mem_range] at hg
  obtain ⟨g0, ⟨j, _, hj⟩, hg0⟩ := hg
  rw [← hg0, ← hj, dot_zero_left _ _ (mem_vsub_self (net w b X))]
  ring

/-- Reading a list entry by entry reproduces the list. -/
lemma map_range_getD (l : List ℚ) :
    (List.range l.length).map (fun j => l.getD j 0) = l := by
  apply List.ext_getElem (by simp)
  intro n h1 h2
  simp only [List.getElem_map, List.getElem_range]
  exact List.getD_eq_getElem l 0 h2

/-- Column `i` of the transpose, written out entry by entry of row `i`. -/
lemma matCol_transpose (X : List (List ℚ)) (i : Nat) (hi : i < X.length) :
    matCol (transpose X) i =
      (List.range X.headI.length).map (fun j => (X.get ⟨i, hi⟩).getD j 0) := by
  unfold transpose matCol
  rw [List.map_map]
  apply List.ext_getElem (by simp)
  intro n h1 h2
  simp only [List.getElem_map, List.getElem_range, Function.comp]
  rw [List.getD_eq_getElem _ _ (by simpa using hi)]
  simp [List.getElem_map]

/-- Under the rectangularity hypothesis, column `i` of the transpose is
row `i`. -/
lemma matCol_transpose_of_rect (w : List ℚ) (X : List (List ℚ))
    (hrect : ∀ row ∈ X, row.length = w.length) (i : Nat) (hi : i < X.length) :
    matCol (transpose X) i = X.get ⟨i, hi⟩ := by
  rw [matCol_transpose X i hi]
  have hrow : (X.get ⟨i, hi⟩).length = w.length :=
    hrect _ (X.get_mem i hi)
  have hhead : X.headI.length = (X.get ⟨i, hi⟩).length := by
    cases X with
    | nil => simp at hi
    | cons r Xt =>
      have : r.length = w.length := hrect r (by simp)
      simp only [List.headI]
      rw [this, hrow]
  rw [hhead, map_range_getD]

/-- The head of the transpose of a matrix with at least one column is its
first column. -/
lemma headI_transpose (X : List (List ℚ)) (h : 0 < X.headI.length) :
    (transpose X).headI = matCol X 0 := by
  unfold transpose
  obtain ⟨k, hk⟩ := Nat.exists_eq_succ_of_ne_zero (Nat.pos_iff_ne_zero.mp h)
  rw [hk, List.range_succ_eq_map]
  rfl

/-! The claim theorems. -/

/-- Claim C1: each step of the gradient-descent driver computes predictions
with the predictor, error = targets − predictions, gradient =
`-(1/n) · (error dot features)` with `n` the sample count, and candidate
updated weights = `weights − learning_rate · gradient`: the gradient and
the candidate computed by the code coincide with the spec-side formulas. -/
theorem step_computes_spec_gradient_and_candidate :
    ∀ (rate : ℚ) (X : List (List ℚ)) (y : List ℚ) (s : GDState),
      (get_gradient s.w s.b X y).1 = specGradient s.w s.b X y ∧
      gdCandidate rate X y s = specCandidate rate X y s := by
  intro rate X y s
  exact ⟨rfl, rfl⟩

/-- Claim C2: the driver converges exactly when the sum of absolute
per-element differences between the candidate and the current weights is
below the tolerance, in which case the candidate is not committed (the
state is unchanged); otherwise it stays running, commits the candidate and
increments the iteration counter. -/
theorem step_converged_iff_weight_delta_below_tol :
    ∀ (rate tol : ℚ) (X : List (List ℚ)) (y : List ℚ) (s : GDState),
      (gdStep rate tol X y s = .converged s ↔
        sumAbs (vsub (gdCandidate rate X y s) s.w) < tol) ∧
      (¬ sumAbs (vsub (gdCandidate rate X y s) s.w) < tol →
        gdStep rate tol X y s = .running ⟨gdCandidate rate X y s, s.b, s.epochs + 1⟩) := by
  intro rate tol X y s
  unfold gdStep
  by_cases h : sumAbs (vsub (gdCandidate rate X y s) s.w) < tol
  · simp [h]
  · simp [h]

/-- Witness for C2 at a concrete non-converging input. -/
theorem step_converged_iff_weight_delta_below_tol_witness :
    gdStep 1 (1/1000) [[1]] [10] ⟨[0], 0, 1⟩ = .running ⟨[10], 0, 2⟩ := by
  have hc : gdCandidate 1 [[1]] [10] ⟨[0], 0, 1⟩ = [10] := by
    norm_num [gdCandidate, get_gradient, net, dot, vsub, scale, vecMat, matCol,
      List.range_succ]
  have h := (step_converged_iff_weight_delta_below_tol 1 (1/1000) [[1]] [10] ⟨[0], 0, 1⟩).2
  rw [hc] at h
  exact h (by norm_num [sumAbs, vsub])

/-- Claim C3 counterexample: the loss evaluator does not fail on every
mismatched-length pair — a length-1 operand is broadcast, so
`square_loss([0], [1, 2])` silently returns 5/2 although 1 ≠ 2. -/
theorem square_loss_broadcasts_length_one :
    ([(0:ℚ)].length ≠ [(1:ℚ), 2].length) ∧ square_loss [0] [1, 2] = some (5/2) := by
  constructor
  · decide
  · norm_num [square_loss, bsub, vsub, mean]

/-- Claim C3 (amended): the loss evaluator fails with a dimension-mismatch
error on every pair whose lengths differ and where neither length is 1
(numpy broadcasts a length-1 operand instead of failing). -/
theorem square_loss_none_of_mismatch :
    ∀ yhat y : List ℚ, yhat.length ≠ y.length → yhat.length ≠ 1 → y.length ≠ 1 →
      square_loss yhat y = none := by
  intro yhat y h1 h2 h3
  unfold square_loss bsub
  simp [h1, h2, h3]

/-- Witness for the amended C3 at a concrete input. -/
theorem square_loss_none_of_mismatch_witness :
    square_loss [(0:ℚ), 1] [0, 1, 2] = none :=
  square_loss_none_of_mismatch [0, 1] [0, 1, 2] (by decide) (by decide) (by decide)

/-- Claim C4 (code-bug evidence): the gradient-descent loop never writes
the bias — whatever the inputs and state, the state after one pass carries
the same bias, so the bias is not among the parameters the loop updates. -/
theorem gdStep_never_writes_bias :
    ∀ (rate tol : ℚ) (X : List (List ℚ)) (y : List ℚ) (s : GDState),
      ((gdStep rate tol X y s).state).b = s.b := by
  intro rate tol X y s
  unfold gdStep
  by_cases h : sumAbs (vsub (gdCandidate rate X y s) s.w) < tol <;>
    simp [h, StepResult.state]

/-- Claim C5 (code-bug evidence): the generator does not return the raw
samples unchanged — it divides the matrix by its maximum entry, so on raw
samples `[[1, 2], [3, 4]]` it returns `[[1/4, 1/2], [3/4, 1]]`. -/
theorem genData_rescales_features :
    (genData [[1, 2], [3, 4]] [0, 0]).1 = [[1/4, 1/2], [3/4, 1]] ∧
    (genData [[1, 2], [3, 4]] [0, 0]).1 ≠ [[1, 2], [3, 4]] := by
  have h : (genData [[1, 2], [3, 4]] [0, 0]).1 = [[1/4, 1/2], [3/4, 1]] := by
    norm_num [genData, matMax, max_def]
  refine ⟨h, ?_⟩
  rw [h]
  intro hEq
  norm_num at hEq

/-- Claim C6: for matching dimensionality (every row as long as the weight
vector, at least one feature), the predictor equals the spec formula
`weights · features^T + bias` and its output length is the sample count. -/
theorem net_matches_spec_formula :
    ∀ (w : List ℚ) (b : ℚ) (X : List (List ℚ)),
      (∀ row ∈ X, row.length = w.length) → 0 < w.length →
      net w b X = specNet w b X ∧ (net w b X).length = X.length := by
  intro w b X hrect hw
  have hnetlen : (net w b X).length = X.length := by simp [net]
  refine ⟨?_, hnetlen⟩
  cases X with
  | nil => rfl
  | cons r Xt =>
    have hr : r.length = w.length := hrect r (by simp)
    have hdpos : 0 < (r :: Xt).headI.length := by
      simpa [List.headI, hr] using hw
    have hhead : ((transpose (r :: Xt)).headI).length = (r :: Xt).length := by
      rw [headI_transpose _ hdpos]
      simp [matCol]
    have hspeclen : (specNet w b (r :: Xt)).length = (r :: Xt).length := by
      simp [specNet, vecMat, hhead]
    have hnl : (net w b (r :: Xt)).length = (r :: Xt).length := by simp [net]
    apply List.ext_getElem (by rw [hnl, hspeclen])
    intro n h1 h2
    have hn : n < (r :: Xt).length := by rw [hnl] at h1; exact h1
    simp only [net, specNet, vecMat, List.getElem_map, List.getElem_range]
    rw [matCol_transpose_of_rect w (r :: Xt) hrect n hn]
    simp

/-- Witness for C6 at the example feature matrix and weights. -/
theorem net_matches_spec_formula_witness :
    net [(2:ℚ), -17/5] 0 [[1, 0], [0, 1]] = specNet [2, -17/5] 0 [[1, 0], [0, 1]] ∧
    (net [(2:ℚ), -17/5] 0 [[1, 0], [0, 1]]).length = [[(1:ℚ), 0], [0, 1]].length :=
  net_matches_spec_formula [2, -17/5] 0 [[1, 0], [0, 1]] (by simp) (by simp)

/-- Claim C7: on equal-length inputs the loss evaluator returns the mean of
the squared element-wise differences. -/
theorem square_loss_is_mean_squared_diff :
    ∀ yhat y : List ℚ, yhat.length = y.length →
      square_loss yhat y = some (mean ((vsub yhat y).map (fun e => e * e))) :=
  fun yhat y h => square_loss_eval yhat y h

/-- Witness for C7 at a concrete equal-length pair. -/
theorem square_loss_is_mean_squared_diff_witness :
    square_loss [(1:ℚ), 2] [3, 5] = some (13/2) := by
  have h := square_loss_is_mean_squared_diff [1, 2] [3, 5] rfl
  rw [h]
  norm_num [mean, vsub]

/-- Claim C8: on equal-length inputs the loss is non-negative and vanishes
exactly when predictions equal targets; in particular the loss of the
exact predictions of the example (weights `[2, -3.4]`, bias 0, features
`[[1, 0], [0, 1]]`) against targets `[2, -3.4]` is 0. -/
theorem square_loss_nonneg_and_zero_iff :
    (∀ yhat y : List ℚ, yhat.length = y.length →
      ∃ q, square_loss yhat y = some q ∧ 0 ≤ q ∧ (q = 0 ↔ yhat = y)) ∧
    square_loss (net [2, -17/5] 0 [[1, 0], [0, 1]]) [2, -17/5] = some 0 := by
  constructor
  · intro yhat y h
    refine ⟨mean ((vsub yhat y).map (fun e => e * e)), square_loss_eval yhat y h, ?_, ?_⟩
    · exact div_nonneg (sumSq_nonneg _) (Nat.cast_nonneg _)
    · unfold mean
      by_cases hy : y = []
      · subst hy
        have hyh : yhat = [] := List.length_eq_zero.mp (by simpa using h)
        subst hyh
        simp [vsub]
      · have hlen : ((vsub yhat y).map (fun e => e * e)).length = y.length := by
          simp [vsub, h]
        have hne : ((((vsub yhat y).map (fun e => e * e)).length : ℚ)) ≠ 0 := by
          rw [hlen]
          exact Nat.cast_ne_zero.mpr (List.length_pos.mpr hy).ne'
        rw [div_eq_zero_iff]
        constructor
        · rintro (hs | hl)
          · exact (sumSq_vsub_eq_zero_iff yhat y h).mp hs
          · exact absurd hl hne
        · intro hEq
          exact Or.inl ((sumSq_vsub_eq_zero_iff yhat y h).mpr hEq)
  · norm_num [net, dot, square_loss, bsub, vsub, mean]

/-- Witness for C8 at a concrete equal-length pair. -/
theorem square_loss_nonneg_and_zero_iff_witness :
    ∃ q, square_loss [(1:ℚ), 2] [1, 3] = some q ∧ 0 ≤ q ∧ (q = 0 ↔ [(1:ℚ), 2] = [1, 3]) :=
  square_loss_nonneg_and_zero_iff.1 [1, 2] [1, 3] rfl

/-- Claim C9: started from parameters that reproduce the targets exactly
(noise-free data, true generating parameters), the gradient is zero and
the driver converges within one step, leaving the state unchanged. -/
theorem exact_fit_converges_in_one_step :
    ∀ (rate tol : ℚ) (X : List (List ℚ)) (w : List ℚ) (b : ℚ) (e : Nat) (y : List ℚ),
      0 < tol → y = net w b X →
      (∀ g ∈ (get_gradient w b X y).1, g = 0) ∧
      gdStep rate tol X y ⟨w, b, e⟩ = .converged ⟨w, b, e⟩ := by
  intro rate tol X w b e y htol hy
  subst hy
  have hgrad := gradient_zero_of_exact w b X
  refine ⟨hgrad, ?_⟩
  have hzero : sumAbs (vsub (gdCandidate rate X (net w b X) ⟨w, b, e⟩)
      (⟨w, b, e⟩ : GDState).w) = 0 := by
    show sumAbs (vsub (vsub w (scale rate (get_gradient w b X (net w b X)).1)) w) = 0
    exact sumAbs_vsub_candidate rate w _ (fun g hg => by rw [hgrad g hg]; ring)
  have hlt : sumAbs (vsub (gdCandidate rate X (net w b X) ⟨w, b, e⟩)
      (⟨w, b, e⟩ : GDState).w) < tol := by
    rw [hzero]; exact htol
  unfold gdStep
  rw [if_pos hlt]

/-- Witness for C9: exact predictions on a concrete dataset. -/
theorem exact_fit_converges_in_one_step_witness :
    (∀ g ∈ (get_gradient [(2:ℚ), -17/5] (21/5) [[1, 0], [0, 1]] [31/5, 4/5]).1, g = 0) ∧
    gdStep (1/100) (1/1000) [[1, 0], [0, 1]] [31/5, 4/5] ⟨[2, -17/5], 21/5, 1⟩ =
      .converged ⟨[2, -17/5], 21/5, 1⟩ :=
  exact_fit_converges_in_one_step (1/100) (1/1000) [[1, 0], [0, 1]] [2, -17/5] (21/5) 1
    [31/5, 4/5] (by norm_num) (by norm_num [net, dot])

/-- Claim C10: with learning rate 0 the candidate weights equal the current
weights (so a run never changes them), and for any positive tolerance the
driver converges on the first iteration with the state unchanged. -/
theorem zero_learning_rate_keeps_weights :
    ∀ (tol : ℚ) (X : List (List ℚ)) (y w : List ℚ) (b : ℚ) (e : Nat),
      (w.length = X.headI.length → gdCandidate 0 X y ⟨w, b, e⟩ = w) ∧
      (0 < tol → gdStep 0 tol X y ⟨w, b, e⟩ = .converged ⟨w, b, e⟩) := by
  intro tol X y w b e
  constructor
  · intro hlen
    show vsub w (scale 0 (get_gradient w b X y).1) = w
    apply vsub_zero_right
    · have hl : (scale 0 (get_gradient w b X y).1).length = X.headI.length := by
        simp [scale, get_gradient, vecMat]
      rw [hl, ← hlen]
    · intro c hc
      simp only [scale] at hc
      obtain ⟨x, _, hx⟩ := List.mem_map.mp hc
      rw [← hx]; ring
  · intro htol
    have hzero : sumAbs (vsub (gdCandidate 0 X y ⟨w, b, e⟩)
        (⟨w, b, e⟩ : GDState).w) = 0 := by
      show sumAbs (vsub (vsub w (scale 0 (get_gradient w b X y).1)) w) = 0
      exact sumAbs_vsub_candidate 0 w _ (fun g _ => by ring)
    have hlt : sumAbs (vsub (gdCandidate 0 X y ⟨w, b, e⟩)
        (⟨w, b, e⟩ : GDState).w) < tol := by
      rw [hzero]; exact htol
    unfold gdStep
    rw [if_pos hlt]

/-- Witness for C10 at a concrete input. -/
theorem zero_learning_rate_keeps_weights_witness :
    gdCandidate 0 [[1, 0]] [5] ⟨[3, 4], 0, 1⟩ = [3, 4] ∧
    gdStep 0 (1/1000) [[1, 0]] [5] ⟨[3, 4], 0, 1⟩ = .converged ⟨[3, 4], 0, 1⟩ :=
  ⟨(zero_learning_rate_keeps_weights (1/1000) [[1, 0]] [5] [3, 4] 0 1).1 rfl,
   (zero_learning_rate_keeps_weights (1/1000) [[1, 0]] [5] [3, 4] 0 1).2 (by norm_num)⟩

end LinRegScratch
